import Mathlib

/-!
Verification of the scene-boundary decision engine of `video-split-scenes.py`.

Timestamps (seconds) are modelled as rationals `ℚ`; Python lists of floats
become `List ℚ`, `(start, end)` pairs become `ℚ × ℚ`, and Python's `None`
becomes `Option`.  The external frame-analysis collaborator (ffmpeg
`blackdetect`) is modelled as an abstract function argument.  Definitions are
translated clause-by-clause from the Python source; claim-side ("spec-worded")
definitions are clearly marked as such.
-/

namespace VideoSplitScenes

/-- Midpoint of a transition interval, `midpoint = (transition_start + transition_end) / 2`
(source line 184). -/
def midpointOf (transition_start transition_end : ℚ) : ℚ :=
  (transition_start + transition_end) / 2

/-- Translation of `before_midpoint = [kf for kf in keyframes if kf <= midpoint]` (source line 185). -/
def before_midpoint (keyframes : List ℚ) (midpoint : ℚ) : List ℚ :=
  keyframes.filter fun kf => decide (kf ≤ midpoint)

/-- Translation of `after_midpoint = [kf for kf in keyframes if kf >= midpoint]` (source line 186). -/
def after_midpoint (keyframes : List ℚ) (midpoint : ℚ) : List ℚ :=
  keyframes.filter fun kf => decide (midpoint ≤ kf)

/-- Translation of `find_nearest_keyframe` (source lines 168-221).
The four-way `match` on `(before_midpoint.getLast?, after_midpoint.head?)`
renders the source's emptiness guards together with `before_midpoint[-1]` /
`after_midpoint[0]`: a Python list is falsy exactly when `getLast?` / `head?`
is `none`, and `[-1]` / `[0]` on the non-empty lists are `getLast?` / `head?`. -/
def find_nearest_keyframe (keyframes : List ℚ) (transition_start transition_end : ℚ) :
    Option ℚ :=
  match (before_midpoint keyframes (midpointOf transition_start transition_end)).getLast?,
        (after_midpoint keyframes (midpointOf transition_start transition_end)).head? with
  | none, none => none
  | none, some kf => some kf
  | some kf, none => some kf
  | some nearest_before, some nearest_after =>
    if transition_start ≤ nearest_before ∧ nearest_after ≤ transition_end then
      if midpointOf transition_start transition_end - nearest_before ≤
          nearest_after - midpointOf transition_start transition_end then
        some nearest_before
      else some nearest_after
    else if transition_start ≤ nearest_before then some nearest_before
    else if nearest_after ≤ transition_end then some nearest_after
    else if |(midpointOf transition_start transition_end - nearest_before) -
        (nearest_after - midpointOf transition_start transition_end)| ≤ 1/2 then
      some nearest_before
    else if midpointOf transition_start transition_end - nearest_before ≤
        nearest_after - midpointOf transition_start transition_end then
      some nearest_before
    else some nearest_after

/-- Translation of `should_merge` (source lines 224-229): `scene_number` is
merge-suppressed iff it lies in `[start, end)` for some supplied range. -/
def should_merge (merge_scenes : List (ℤ × ℤ)) (scene_number : ℤ) : Bool :=
  merge_scenes.any fun p => decide (p.1 ≤ scene_number) && decide (scene_number < p.2)

/-- The value `scene_end if scene_end else end` folded into the intro maximum
(source line 299).  Python truthiness: the fallback to `end` fires when
`find_nearest_keyframe` returns `None` and also when it returns `0.0`. -/
def intro_cut (keyframes : List ℚ) (p : ℚ × ℚ) : ℚ :=
  match find_nearest_keyframe keyframes p.1 p.2 with
  | none => p.2
  | some scene_end => if scene_end = 0 then p.2 else scene_end

/-- The intro-detection loop (source lines 295-301), with the running maximum
`intro_end` as accumulator; the `else break` of the source is the early return
of the accumulator. -/
def intro_end_loop (keyframes : List ℚ) (intro_time_limit : ℚ) :
    List (ℚ × ℚ) → ℚ → ℚ
  | [], acc => acc
  | p :: rest, acc =>
    if p.1 < intro_time_limit then
      intro_end_loop keyframes intro_time_limit rest (max acc (intro_cut keyframes p))
    else acc

/-- Translation of `intro_end` (source lines 294-301): starts at `0.0` and scans `black_frames`. -/
def intro_end (black_frames : List (ℚ × ℚ)) (keyframes : List ℚ)
    (intro_time_limit : ℚ) : ℚ :=
  intro_end_loop keyframes intro_time_limit black_frames 0

/-- Translation of `all_transitions` (source lines 305-309): for each transition keep its snapped
cut point when it is truthy (`scene_end and ...`, i.e. non-`None` and nonzero)
and strictly greater than `intro_end`. -/
def all_transitions (black_frames : List (ℚ × ℚ)) (keyframes : List ℚ)
    (introEnd : ℚ) : List ℚ :=
  black_frames.filterMap fun p =>
    (find_nearest_keyframe keyframes p.1 p.2).bind fun scene_end =>
      if scene_end ≠ 0 ∧ introEnd < scene_end then some scene_end else none

/-- The non-defer (`else`) branch of the split-point selection (source lines
346-356): emit the first candidate at distance at least `min_scene_duration`
from `current_start`, unless `should_merge` suppresses it; either way the
cursor and the pre-merge scene number advance. -/
def split_points_earliest (min_scene_duration : ℚ) (merge_scenes : List (ℤ × ℤ)) :
    List ℚ → ℚ → ℤ → List ℚ
  | [], _, _ => []
  | t :: rest, current_start, premerge_scene_number =>
    if min_scene_duration ≤ t - current_start then
      if should_merge merge_scenes premerge_scene_number then
        split_points_earliest min_scene_duration merge_scenes rest t
          (premerge_scene_number + 1)
      else
        t :: split_points_earliest min_scene_duration merge_scenes rest t
          (premerge_scene_number + 1)
    else
      split_points_earliest min_scene_duration merge_scenes rest current_start
        premerge_scene_number

/-- The inner `while` of the defer branch (source lines 328-333), result
`all_transitions[j]`: starting from `last = first_valid_split`, keep advancing
while the next candidate is within `defer_limit` of `first_valid_split`. -/
def clusterLast (defer_limit first_valid_split : ℚ) : ℚ → List ℚ → ℚ
  | last, [] => last
  | last, x :: xs =>
    if x - first_valid_split ≤ defer_limit then clusterLast defer_limit first_valid_split x xs
    else last

/-- The candidates remaining after the defer branch resumes at `i = j + 1`
(source line 343), i.e. the suffix after the cluster of `first_valid_split`. -/
def clusterTail (defer_limit first_valid_split : ℚ) : List ℚ → List ℚ
  | [] => []
  | x :: xs =>
    if x - first_valid_split ≤ defer_limit then clusterTail defer_limit first_valid_split xs
    else x :: xs

theorem clusterTail_length_le (defer_limit first_valid_split : ℚ) :
    ∀ l : List ℚ, (clusterTail defer_limit first_valid_split l).length ≤ l.length := by
  intro l
  induction l with
  | nil => simp [clusterTail]
  | cons x xs ih =>
    by_cases h : x - first_valid_split ≤ defer_limit
    · simpa [clusterTail, h] using Nat.le_succ_of_le ih
    · simp [clusterTail, h]

/-- The defer (`--defer`) branch of the split-point selection (source lines
320-345): when a candidate is far enough from the cursor, the decision point is
the last candidate within `defer_limit` of that first valid split, the scan
resumes after the cluster, and the merge-or-emit logic is applied. -/
def split_points_defer (min_scene_duration defer_limit : ℚ)
    (merge_scenes : List (ℤ × ℤ)) :
    List ℚ → ℚ → ℤ → List ℚ
  | [], _, _ => []
  | t :: rest, current_start, premerge_scene_number =>
    if min_scene_duration ≤ t - current_start then
      if should_merge merge_scenes premerge_scene_number then
        split_points_defer min_scene_duration defer_limit merge_scenes
          (clusterTail defer_limit t rest) (clusterLast defer_limit t t rest)
          (premerge_scene_number + 1)
      else
        clusterLast defer_limit t t rest ::
          split_points_defer min_scene_duration defer_limit merge_scenes
            (clusterTail defer_limit t rest) (clusterLast defer_limit t t rest)
            (premerge_scene_number + 1)
    else
      split_points_defer min_scene_duration defer_limit merge_scenes rest
        current_start premerge_scene_number
termination_by l _ _ => l.length
decreasing_by
  · exact Nat.lt_succ_of_le (clusterTail_length_le _ _ _)
  · exact Nat.lt_succ_of_le (clusterTail_length_le _ _ _)
  · exact Nat.lt_succ_of_le (Nat.le_refl _)

/-- Round half to even to the nearest integer, as Python's `round` does. -/
def roundHalfEvenInt (q : ℚ) : ℤ :=
  if q - ⌊q⌋ < 1/2 then ⌊q⌋
  else if 1/2 < q - ⌊q⌋ then ⌊q⌋ + 1
  else if ⌊q⌋ % 2 = 0 then ⌊q⌋ else ⌊q⌋ + 1

/-- Python `round(x, 4)` on the exact value: round half to even at 4 decimals. -/
def roundTo4 (q : ℚ) : ℚ :=
  (roundHalfEvenInt (q * 10000) : ℚ) / 10000

/-- The per-attempt post-processing of the refined report (source lines 132-141):
shift window-relative times by `analysis_start`, keep only pairs overlapping the
original `(start_time, end_time)` range, clamp the survivors to that range. -/
def overlapClamp (start_time end_time analysis_start : ℚ)
    (refined_frames : List (ℚ × ℚ)) : List (ℚ × ℚ) :=
  refined_frames.filterMap fun p =>
    if start_time < analysis_start + p.2 ∧ analysis_start + p.1 < end_time then
      some (max (analysis_start + p.1) start_time, min (analysis_start + p.2) end_time)
    else none

/-- The `for attempt in range(2)` loop of `refine_long_segment` (source lines
106-165), with the frame-analysis collaborator abstracted as
`detect analysis_start analysis_duration test_th`.  Fuel counts the remaining
attempts; on exhaustion the original segment is returned. -/
def refineAttempts (detect : ℚ → ℚ → ℚ → List (ℚ × ℚ))
    (start_time end_time max_duration : ℚ) : ℕ → ℚ → List (ℚ × ℚ)
  | 0, _ => [(start_time, end_time)]
  | k + 1, current_th =>
    let analysis_start := max 0 (start_time - 1/2)
    let analysis_duration := (end_time - start_time) + 1
    let test_th := roundTo4 ((current_th + 1) / 2)
    let refined_frames := detect analysis_start analysis_duration test_th
    if refined_frames = [] then [(start_time, end_time)]
    else
      let refined := overlapClamp start_time end_time analysis_start refined_frames
      if refined = [] then [(start_time, end_time)]
      else
        let short_segments := refined.filter fun p => decide (p.2 - p.1 < max_duration)
        if short_segments.isEmpty then
          refineAttempts detect start_time end_time max_duration k test_th
        else short_segments

/-- Translation of `refine_long_segment` (source lines 94-165): up to two
tightening attempts starting from the configured `pic_th`. -/
def refine_long_segment (detect : ℚ → ℚ → ℚ → List (ℚ × ℚ))
    (start_time end_time pic_th max_duration : ℚ) : List (ℚ × ℚ) :=
  refineAttempts detect start_time end_time max_duration 2 pic_th

/-- The argument-validation predicate of source lines 81-82:
`parser.error` fires iff `max_duration != 0 and max_duration <= duration`. -/
def config_error (max_duration duration : ℚ) : Bool :=
  decide (max_duration ≠ 0) && decide (max_duration ≤ duration)

/-- Translation of `auto_adjust_enabled = not disable_auto_adjust and max_duration > 0`
(source line 266). -/
def auto_adjust_enabled (disable_auto_adjust : Bool) (max_duration : ℚ) : Bool :=
  !disable_auto_adjust && decide (0 < max_duration)

/-- One decision point of the defer branch, as recorded by `defer_trace`:
the cursor value against which the minimum-gap test succeeded, the pre-merge
scene number, the first valid split (the cluster anchor), and the decision
point `all_transitions[j]` actually used. -/
structure DeferEntry where
  cursor : ℚ
  scene : ℤ
  anchor : ℚ
  decision : ℚ

/-- Instrumented version of the defer branch: records every decision point
(whether merged or emitted) together with its cursor and cluster anchor.
`split_points_defer` is recovered from it by filtering out the merged scenes
(see the theorem for claim C3). -/
def defer_trace (min_scene_duration defer_limit : ℚ) :
    List ℚ → ℚ → ℤ → List DeferEntry
  | [], _, _ => []
  | t :: rest, current_start, premerge_scene_number =>
    if min_scene_duration ≤ t - current_start then
      ⟨current_start, premerge_scene_number, t, clusterLast defer_limit t t rest⟩ ::
        defer_trace min_scene_duration defer_limit
          (clusterTail defer_limit t rest) (clusterLast defer_limit t t rest)
          (premerge_scene_number + 1)
    else defer_trace min_scene_duration defer_limit rest current_start premerge_scene_number
termination_by l _ _ => l.length
decreasing_by
  · exact Nat.lt_succ_of_le (clusterTail_length_le _ _ _)
  · exact Nat.lt_succ_of_le (Nat.le_refl _)

/-! ### Claim-side definitions

The following definitions are worded after the claims/spec, for refinement
comparison with the source translations above; they are not source code. -/

/-- Worded from claim C1: partition the keyframes into the set `≤ midpoint`
(candidate: the largest such keyframe, `List.max?`) and the set `≥ midpoint`
(candidate: the smallest such keyframe, `List.min?`), then follow the claimed
branch order, "inside" meaning membership in `[transitionStart, transitionEnd]`. -/
def snapClaim (keyframes : List ℚ) (transitionStart transitionEnd : ℚ) : Option ℚ :=
  let midpoint := (transitionStart + transitionEnd) / 2
  match (keyframes.filter fun kf => decide (kf ≤ midpoint)).max?,
        (keyframes.filter fun kf => decide (midpoint ≤ kf)).min? with
  | none, none => none
  | none, some a => some a
  | some b, none => some b
  | some b, some a =>
    if (transitionStart ≤ b ∧ b ≤ transitionEnd) ∧
        (transitionStart ≤ a ∧ a ≤ transitionEnd) then
      if midpoint - b ≤ a - midpoint then some b else some a
    else if transitionStart ≤ b ∧ b ≤ transitionEnd then some b
    else if transitionStart ≤ a ∧ a ≤ transitionEnd then some a
    else if |(midpoint - b) - (a - midpoint)| ≤ 1/2 then some b
    else if midpoint - b ≤ a - midpoint then some b else some a

/-- Worded from claim C5: the per-transition intro cut point, "falling back to
the transition's end exactly when snapping returns none". -/
def intro_cut_claimed (keyframes : List ℚ) (p : ℚ × ℚ) : ℚ :=
  match find_nearest_keyframe keyframes p.1 p.2 with
  | none => p.2
  | some scene_end => scene_end

/-- Worded from claim C5: a prefix scan (stop at the first transition whose
start reaches the limit), running maximum of the claimed cut points, `0`
when no transition qualifies. -/
def intro_end_claimed (black_frames : List (ℚ × ℚ)) (keyframes : List ℚ)
    (intro_time_limit : ℚ) : ℚ :=
  ((black_frames.takeWhile fun p => decide (p.1 < intro_time_limit)).map
    (intro_cut_claimed keyframes)).foldl max 0

/-- Worded from claim C2: a split-point sequence has no short scene when each
emitted point is at least `minSceneDuration` after the previous one (the first
one being measured against `introEnd`). -/
def noShortScene (minSceneDuration introEnd : ℚ) (splits : List ℚ) : Prop :=
  (introEnd :: splits).Chain' fun a b => minSceneDuration ≤ b - a

/-- Worded from claim C6 as stated: the padded analysis window runs "from
`max(0, intervalStart - 0.5)` to `intervalEnd + 0.5`", so the duration handed
to the collaborator is `intervalEnd + 0.5` minus the window start; everything
else follows the claim's per-attempt description. -/
def refineClaimedAttempts (detect : ℚ → ℚ → ℚ → List (ℚ × ℚ))
    (intervalStart intervalEnd maxAllowedDuration : ℚ) : ℕ → ℚ → List (ℚ × ℚ)
  | 0, _ => [(intervalStart, intervalEnd)]
  | k + 1, current =>
    let windowStart := max 0 (intervalStart - 1/2)
    let newThreshold := roundTo4 ((current + 1) / 2)
    let reported := detect windowStart ((intervalEnd + 1/2) - windowStart) newThreshold
    let shifted := reported.map fun p => (windowStart + p.1, windowStart + p.2)
    let surviving :=
      (shifted.filter fun p => decide (intervalStart < p.2 ∧ p.1 < intervalEnd)).map
        fun p => (max p.1 intervalStart, min p.2 intervalEnd)
    if surviving = [] then [(intervalStart, intervalEnd)]
    else
      let short := surviving.filter fun p => decide (p.2 - p.1 < maxAllowedDuration)
      if short = [] then
        refineClaimedAttempts detect intervalStart intervalEnd maxAllowedDuration k newThreshold
      else short

/-- Claim C6 as stated (window ending at `intervalEnd + 0.5`), two attempts. -/
def refineClaimed (detect : ℚ → ℚ → ℚ → List (ℚ × ℚ))
    (intervalStart intervalEnd pic_th maxAllowedDuration : ℚ) : List (ℚ × ℚ) :=
  refineClaimedAttempts detect intervalStart intervalEnd maxAllowedDuration 2 pic_th

/-- Claim C6 amended: identical to `refineClaimedAttempts` except that the
window keeps the source's length `(intervalEnd - intervalStart) + 1` — i.e. it
runs from `max 0 (intervalStart - 0.5)` for `(intervalEnd + 0.5) - (intervalStart - 0.5)`
seconds, so its end is `intervalEnd + 0.5` only when `intervalStart ≥ 0.5`. -/
def refineAmendedAttempts (detect : ℚ → ℚ → ℚ → List (ℚ × ℚ))
    (intervalStart intervalEnd maxAllowedDuration : ℚ) : ℕ → ℚ → List (ℚ × ℚ)
  | 0, _ => [(intervalStart, intervalEnd)]
  | k + 1, current =>
    let windowStart := max 0 (intervalStart - 1/2)
    let newThreshold := roundTo4 ((current + 1) / 2)
    let reported := detect windowStart ((intervalEnd + 1/2) - (intervalStart - 1/2)) newThreshold
    let shifted := reported.map fun p => (windowStart + p.1, windowStart + p.2)
    let surviving :=
      (shifted.filter fun p => decide (intervalStart < p.2 ∧ p.1 < intervalEnd)).map
        fun p => (max p.1 intervalStart, min p.2 intervalEnd)
    if surviving = [] then [(intervalStart, intervalEnd)]
    else
      let short := surviving.filter fun p => decide (p.2 - p.1 < maxAllowedDuration)
      if short = [] then
        refineAmendedAttempts detect intervalStart intervalEnd maxAllowedDuration k newThreshold
      else short

/-- Claim C6 amended, two attempts starting from the configured threshold. -/
def refineAmended (detect : ℚ → ℚ → ℚ → List (ℚ × ℚ))
    (intervalStart intervalEnd pic_th maxAllowedDuration : ℚ) : List (ℚ × ℚ) :=
  refineAmendedAttempts detect intervalStart intervalEnd maxAllowedDuration 2 pic_th

/-- A frame-analysis collaborator that reports a sub-interval only when invoked
with window duration exactly `2`; used to observe which window the refiner
actually requests. -/
def detectDurProbe : ℚ → ℚ → ℚ → List (ℚ × ℚ) :=
  fun _ d _ => if d = 2 then [(1/2, 1)] else []

/-! ### Helper lemmas -/

theorem mem_of_getLast?_eq {l : List ℚ} {a : ℚ} (h : l.getLast? = some a) : a ∈ l := by
  obtain ⟨hne, rfl⟩ := List.mem_getLast?_eq_getLast (Option.mem_def.2 h)
  exact List.getLast_mem hne

theorem mem_of_head?_eq {l : List ℚ} {a : ℚ} (h : l.head? = some a) : a ∈ l :=
  List.mem_of_mem_head? (Option.mem_def.2 h)

theorem sorted_getLast?_eq_max? :
    ∀ l : List ℚ, l.Sorted (· ≤ ·) → l.getLast? = l.max?
  | [], _ => rfl
  | [_], _ => rfl
  | a :: b :: t, h => by
    have hab : a ≤ b := (List.pairwise_cons.1 h).1 b (by simp)
    have ht : (b :: t).Sorted (· ≤ ·) := (List.pairwise_cons.1 h).2
    rw [List.getLast?_cons_cons, sorted_getLast?_eq_max? (b :: t) ht]
    show some (List.foldl max b t) = some (List.foldl max (max a b) t)
    rw [max_eq_right hab]

theorem sorted_foldl_min :
    ∀ (l : List ℚ) (a : ℚ), (a :: l).Sorted (· ≤ ·) → List.foldl min a l = a
  | [], _, _ => rfl
  | b :: t, a, h => by
    have hab : a ≤ b := (List.pairwise_cons.1 h).1 b (by simp)
    have ht : (a :: t).Sorted (· ≤ ·) := by
      refine List.Pairwise.sublist ?_ h
      exact List.Sublist.cons₂ a (List.sublist_cons_self b t)
    show List.foldl min (min a b) t = a
    rw [min_eq_left hab]
    exact sorted_foldl_min t a ht

theorem sorted_head?_eq_min? :
    ∀ l : List ℚ, l.Sorted (· ≤ ·) → l.head? = l.min?
  | [], _ => rfl
  | a :: t, h => by
    show some a = some (List.foldl min a t)
    rw [sorted_foldl_min t a h]

/-! ### Claim C1 -/

/-- Claim C1: for every keyframe list sorted in increasing order and every
transition interval with `transitionStart < transitionEnd`,
`find_nearest_keyframe` follows exactly the claimed branch order on
`midpoint = (transitionStart + transitionEnd) / 2`: none when both sides are
empty; the sole candidate (largest keyframe `≤ midpoint`, resp. smallest
`≥ midpoint`) when exactly one side is non-empty; when both candidates lie
inside `[transitionStart, transitionEnd]`, the one closer to the midpoint with
ties to the before-candidate; else the one that lies inside, if any; else the
before-candidate when the two midpoint distances differ by at most `0.5`, and
otherwise the closer candidate. -/
theorem C1_find_nearest_keyframe_branch_order
    (keyframes : List ℚ) (transitionStart transitionEnd : ℚ)
    (hsorted : keyframes.Sorted (· ≤ ·))
    (hlt : transitionStart < transitionEnd) :
    find_nearest_keyframe keyframes transitionStart transitionEnd =
      snapClaim keyframes transitionStart transitionEnd := by
  have hBs : (keyframes.filter fun kf =>
      decide (kf ≤ midpointOf transitionStart transitionEnd)).Sorted (· ≤ ·) :=
    hsorted.filter _
  have hAs : (keyframes.filter fun kf =>
      decide (midpointOf transitionStart transitionEnd ≤ kf)).Sorted (· ≤ ·) :=
    hsorted.filter _
  unfold find_nearest_keyframe snapClaim before_midpoint after_midpoint
  simp only [midpointOf] at hBs hAs ⊢
  rw [← sorted_getLast?_eq_max? _ hBs, ← sorted_head?_eq_min? _ hAs]
  cases hgb : (keyframes.filter fun kf =>
      decide (kf ≤ (transitionStart + transitionEnd) / 2)).getLast? with
  | none =>
    cases hga : (keyframes.filter fun kf =>
        decide ((transitionStart + transitionEnd) / 2 ≤ kf)).head? <;> rfl
  | some b =>
    cases hga : (keyframes.filter fun kf =>
        decide ((transitionStart + transitionEnd) / 2 ≤ kf)).head? with
    | none => rfl
    | some a =>
      have hbm : b ≤ (transitionStart + transitionEnd) / 2 :=
        of_decide_eq_true (List.mem_filter.1 (mem_of_getLast?_eq hgb)).2
      have ham : (transitionStart + transitionEnd) / 2 ≤ a :=
        of_decide_eq_true (List.mem_filter.1 (mem_of_head?_eq hga)).2
      have hsm : transitionStart ≤ (transitionStart + transitionEnd) / 2 := by linarith
      have hme : (transitionStart + transitionEnd) / 2 ≤ transitionEnd := by linarith
      have hbe : b ≤ transitionEnd := hbm.trans hme
      have hsa : transitionStart ≤ a := hsm.trans ham
      by_cases hb : transitionStart ≤ b <;> by_cases ha : a ≤ transitionEnd <;>
        simp [hb, ha, hbe, hsa]

/-- Witness for C1 at the sorted keyframe list `[1]` and the transition `(0, 2)`. -/
theorem C1_find_nearest_keyframe_branch_order_witness :
    find_nearest_keyframe [1] 0 2 = snapClaim [1] 0 2 :=
  C1_find_nearest_keyframe_branch_order [1] 0 2 (by decide) (by decide)

/-! ### Claim C2 -/

theorem chain'_gap_anti (m : ℚ) {a b : ℚ} {l : List ℚ} (hba : b ≤ a)
    (h : (a :: l).Chain' fun x y => m ≤ y - x) :
    (b :: l).Chain' fun x y => m ≤ y - x := by
  rw [List.chain'_cons'] at h ⊢
  refine ⟨fun y hy => ?_, h.2⟩
  have := h.1 y hy
  linarith

theorem split_points_earliest_gap (minDur : ℚ) (merge : List (ℤ × ℤ))
    (h : 0 ≤ minDur) :
    ∀ (cands : List ℚ) (cur : ℚ) (n : ℤ),
      (cur :: split_points_earliest minDur merge cands cur n).Chain'
        fun a b => minDur ≤ b - a := by
  intro cands
  induction cands with
  | nil => intro cur n; simp [split_points_earliest]
  | cons t rest ih =>
    intro cur n
    by_cases hq : minDur ≤ t - cur
    · have hct : cur ≤ t := by linarith
      by_cases hm : should_merge merge n = true
      · simpa [split_points_earliest, hq, hm] using
          chain'_gap_anti minDur hct (ih t (n + 1))
      · have hc : (cur :: t :: split_points_earliest minDur merge rest t (n + 1)).Chain'
            (fun a b => minDur ≤ b - a) := List.chain'_cons.2 ⟨hq, ih t (n + 1)⟩
        simpa [split_points_earliest, hq, hm] using hc
    · simpa [split_points_earliest, hq] using ih cur n

/-- Counterexample to claim C2 as stated: the claim quantifies over every
minimum scene duration; with `minSceneDuration = -10`, `introEnd = 0`,
candidates `[20, 10, 0]` and merge range `(2, 3)`, the Earliest loop emits
`[20, 0]`, and the second emitted split point is `20` below the previously
emitted one — strictly less than `minSceneDuration` above it. -/
theorem C2_counterexample :
    ¬ noShortScene (-10) 0 (split_points_earliest (-10) [(2, 3)] [20, 10, 0] 0 1) := by
  have hv : split_points_earliest (-10) [(2, 3)] [20, 10, 0] 0 1 = [20, 0] := by
    norm_num [split_points_earliest, should_merge]
  rw [hv]
  unfold noShortScene
  intro hchain
  rw [List.chain'_cons, List.chain'_cons] at hchain
  have := hchain.2.1
  linarith

/-- Claim C2, amended: under the Earliest (non-defer) policy, for every input
list of candidate transitions, every intro end, every merge-range set and
every NONNEGATIVE minimum scene duration, the selection loop never emits a
split point `t` such that `t` minus the previously emitted split point (or
minus `introEnd` when none has been emitted) is strictly less than
`minSceneDuration`.  (For negative `minSceneDuration` the code violates the
claim, see the counterexample.) -/
theorem C2_earliest_never_short (minDur introEnd : ℚ) (merge : List (ℤ × ℤ))
    (cands : List ℚ) (h : 0 ≤ minDur) :
    noShortScene minDur introEnd (split_points_earliest minDur merge cands introEnd 1) := by
  unfold noShortScene
  exact split_points_earliest_gap minDur merge h cands introEnd 1

/-- Witness for C2 at `minSceneDuration = 5`, `introEnd = 0`, candidates `[7]`. -/
theorem C2_earliest_never_short_witness :
    noShortScene 5 0 (split_points_earliest 5 [] [7] 0 1) :=
  C2_earliest_never_short 5 0 [] [7] (by decide)

/-! ### Claim C5 -/

theorem intro_end_loop_eq_foldl (kf : List ℚ) (limit : ℚ) :
    ∀ (bf : List (ℚ × ℚ)) (acc : ℚ),
      intro_end_loop kf limit bf acc =
        ((bf.takeWhile fun p => decide (p.1 < limit)).map (intro_cut kf)).foldl max acc := by
  intro bf
  induction bf with
  | nil => intro acc; simp [intro_end_loop]
  | cons p rest ih =>
    intro acc
    by_cases hp : p.1 < limit
    · simp [intro_end_loop, hp, List.takeWhile_cons, ih]
    · simp [intro_end_loop, hp, List.takeWhile_cons]

/-- Counterexample to claim C5 as stated: with the single keyframe `0`, the
transition `(0, 1)` and `introTimeLimit = 1`, snapping returns `some 0` (not
none), yet the code falls back to the transition's end `1` because Python
treats the float `0.0` as falsy: the code computes intro end `1`, while the
claimed procedure (fall back exactly when snapping returns none) computes `0`. -/
theorem C5_counterexample :
    intro_end [(0, 1)] [0] 1 = 1 ∧ intro_end_claimed [(0, 1)] [0] 1 = 0 := by
  constructor
  · norm_num [intro_end, intro_end_loop, intro_cut, find_nearest_keyframe,
      before_midpoint, after_midpoint, midpointOf, List.filter]
  · norm_num [intro_end_claimed, intro_cut_claimed, find_nearest_keyframe,
      before_midpoint, after_midpoint, midpointOf, List.filter, List.takeWhile]

/-- Claim C5, amended: `intro_end` scans the transitions as a prefix scan —
`takeWhile start < introTimeLimit`, so the scan stops at the first transition
whose start reaches the limit and later transitions are never considered — and
returns the running maximum (base `0.0`, returned when no transition
qualifies) of the snapped cut points, falling back to the transition's end
when snapping returns none OR returns the falsy timestamp `0.0` (Python
truthiness; the claim's "exactly when snapping returns none" fails, see the
counterexample). -/
theorem C5_intro_end_prefix_scan (bf : List (ℚ × ℚ)) (kf : List ℚ) (limit : ℚ) :
    intro_end bf kf limit =
      ((bf.takeWhile fun p => decide (p.1 < limit)).map (intro_cut kf)).foldl max 0 :=
  intro_end_loop_eq_foldl kf limit bf 0

/-! ### Claim C7 -/

/-- Counterexample to claim C7 as stated: with `--disable_auto_adjust` set,
`max_duration = 0.3` and `duration = 0.5`, auto-adjustment is disabled, yet
the validation at source lines 81-82 still raises the fatal configuration
error — the error is NOT raised "exactly when auto-adjustment is enabled". -/
theorem C7_counterexample :
    ¬ (config_error (3/10) (1/2) = true ↔
        auto_adjust_enabled true (3/10) = true ∧ (3/10 : ℚ) ≤ 1/2) := by
  intro h
  have he : config_error (3/10) (1/2) = true := by norm_num [config_error]
  have := (h.1 he).1
  simp [auto_adjust_enabled] at this

/-- Claim C7, amended: the fatal configuration check fires exactly when
`max_duration ≠ 0` and `max_duration ≤ duration`, regardless of the
`--disable_auto_adjust` flag; in particular, whenever auto-adjustment is
enabled and the ceiling is not strictly greater than the minimum transition
duration it fires, but disabling auto-adjustment via the flag does NOT make
the combination legal — only `max_duration = 0` does. -/
theorem C7_config_error_characterization (disable_auto_adjust : Bool)
    (max_duration duration : ℚ) :
    (config_error max_duration duration = true ↔
      max_duration ≠ 0 ∧ max_duration ≤ duration) ∧
    (auto_adjust_enabled disable_auto_adjust max_duration = true →
      max_duration ≤ duration → config_error max_duration duration = true) := by
  constructor
  · simp [config_error]
  · intro h hle
    simp only [auto_adjust_enabled, Bool.and_eq_true, decide_eq_true_eq] at h
    simp only [config_error, Bool.and_eq_true, decide_eq_true_eq]
    exact ⟨ne_of_gt h.2, hle⟩

/-- Witness for C7: with auto-adjustment enabled and `max_duration = 1 ≤ 2 = duration`
the validation fires. -/
theorem C7_config_error_characterization_witness : config_error 1 2 = true :=
  (C7_config_error_characterization false 1 2).2 (by decide) (by decide)

/-! ### Claim C8 -/

/-- Claim C8: for keyframes `{9.8, 10.9}` and the transition `(10, 10.6)`,
snapping computes midpoint `10.3`, nearest-before `9.8` and nearest-after
`10.9`, both outside the interval, with midpoint distances `0.5` and `0.6`
whose difference `0.1` is at most `0.5`, so it returns `9.8`; and with
`introEnd = 0` and `minSceneDuration = 5`, `9.8` becomes the sole final split
point (Earliest policy). -/
theorem C8_end_to_end_scenario :
    midpointOf 10 (53/5) = 103/10 ∧
    (before_midpoint [49/5, 109/10] (103/10)).getLast? = some (49/5) ∧
    (after_midpoint [49/5, 109/10] (103/10)).head? = some (109/10) ∧
    ¬ ((10 : ℚ) ≤ 49/5) ∧ ¬ ((109 : ℚ)/10 ≤ 53/5) ∧
    (103 : ℚ)/10 - 49/5 = 1/2 ∧ (109 : ℚ)/10 - 103/10 = 3/5 ∧
    |((103 : ℚ)/10 - 49/5) - ((109 : ℚ)/10 - 103/10)| = 1/10 ∧
    ((1 : ℚ)/10 ≤ 1/2) ∧
    find_nearest_keyframe [49/5, 109/10] 10 (53/5) = some (49/5) ∧
    split_points_earliest 5 [] (all_transitions [(10, 53/5)] [49/5, 109/10] 0) 0 1
      = [49/5] := by
  refine ⟨?_, ?_, ?_, ?_, ?_, ?_, ?_, ?_, ?_, ?_, ?_⟩
  · norm_num [midpointOf]
  · norm_num [before_midpoint, List.filter]
  · norm_num [after_midpoint, List.filter]
  · norm_num
  · norm_num
  · norm_num
  · norm_num
  · rw [abs_of_nonpos] <;> norm_num
  · norm_num
  · norm_num [find_nearest_keyframe, midpointOf, before_midpoint, after_midpoint,
      List.filter, abs_of_nonpos]
  · norm_num [all_transitions, List.filterMap, find_nearest_keyframe, midpointOf,
      before_midpoint, after_midpoint, List.filter, abs_of_nonpos,
      split_points_earliest, should_merge]

/-! ### Cluster lemmas for the defer branch -/

theorem clusterLast_eq_or_mem (dl f : ℚ) :
    ∀ (l : List ℚ) (last : ℚ),
      clusterLast dl f last l = last ∨ clusterLast dl f last l ∈ l := by
  intro l
  induction l with
  | nil => intro last; left; rfl
  | cons x xs ih =>
    intro last
    by_cases h : x - f ≤ dl
    · rcases ih x with h' | h'
      · right; simp [clusterLast, h, h']
      · right; simp only [clusterLast, if_pos h]; exact List.mem_cons_of_mem x h'
    · left; simp [clusterLast, h]

theorem clusterLast_eq_last_or_sub_le (dl f : ℚ) :
    ∀ (l : List ℚ) (last : ℚ),
      clusterLast dl f last l = last ∨ clusterLast dl f last l - f ≤ dl := by
  intro l
  induction l with
  | nil => intro last; left; rfl
  | cons x xs ih =>
    intro last
    by_cases hx : x - f ≤ dl
    · rcases ih x with h' | h'
      · right; simp only [clusterLast, if_pos hx]; rw [h']; exact hx
      · right; simpa only [clusterLast, if_pos hx] using h'
    · left; simp [clusterLast, hx]

theorem clusterTail_suffix (dl f : ℚ) : ∀ l : List ℚ, clusterTail dl f l <:+ l := by
  intro l
  induction l with
  | nil => simp [clusterTail]
  | cons x xs ih =>
    by_cases h : x - f ≤ dl
    · simp only [clusterTail, if_pos h]
      exact ih.trans (List.suffix_cons x xs)
    · simp [clusterTail, h]

theorem clusterTail_sorted {dl f : ℚ} {l : List ℚ} (h : l.Sorted (· ≤ ·)) :
    (clusterTail dl f l).Sorted (· ≤ ·) :=
  List.Pairwise.sublist (clusterTail_suffix dl f l).sublist h

theorem chain'_lt_anti {a b : ℚ} {l : List ℚ} (hba : b ≤ a)
    (h : (a :: l).Chain' (· < ·)) : (b :: l).Chain' (· < ·) := by
  rw [List.chain'_cons'] at h ⊢
  exact ⟨fun y hy => lt_of_le_of_lt hba (h.1 y hy), h.2⟩

theorem split_points_earliest_lt (minDur : ℚ) (merge : List (ℤ × ℤ))
    (h : 0 < minDur) :
    ∀ (cands : List ℚ) (cur : ℚ) (n : ℤ),
      (cur :: split_points_earliest minDur merge cands cur n).Chain' (· < ·) := by
  intro cands
  induction cands with
  | nil => intro cur n; simp [split_points_earliest]
  | cons t rest ih =>
    intro cur n
    by_cases hq : minDur ≤ t - cur
    · have hct : cur < t := by linarith
      by_cases hm : should_merge merge n = true
      · simpa [split_points_earliest, hq, hm] using chain'_lt_anti hct.le (ih t (n + 1))
      · have hc : (cur :: t :: split_points_earliest minDur merge rest t (n + 1)).Chain'
            (· < ·) := List.chain'_cons.2 ⟨hct, ih t (n + 1)⟩
        simpa [split_points_earliest, hq, hm] using hc
    · simpa [split_points_earliest, hq] using ih cur n

theorem split_points_defer_lt (minDur dLim : ℚ) (merge : List (ℤ × ℤ))
    (h : 0 < minDur) :
    ∀ (cands : List ℚ) (cur : ℚ) (n : ℤ), cands.Sorted (· ≤ ·) →
      (cur :: split_points_defer minDur dLim merge cands cur n).Chain' (· < ·) := by
  intro cands cur n
  induction cands, cur, n using split_points_defer.induct minDur dLim merge with
  | case1 cur n => intro _; simp [split_points_defer]
  | case2 t rest cur n hq hm ih =>
    intro hs
    have hct : cur < t := by linarith
    have hrest : rest.Sorted (· ≤ ·) := (List.pairwise_cons.1 hs).2
    have hd : t ≤ clusterLast dLim t t rest := by
      rcases clusterLast_eq_or_mem dLim t rest t with h' | h'
      · rw [h']
      · exact (List.pairwise_cons.1 hs).1 _ h'
    have ihc := ih (clusterTail_sorted hrest)
    simpa [split_points_defer, hq, hm] using
      chain'_lt_anti (hct.trans_le hd).le ihc
  | case3 t rest cur n hq hm ih =>
    intro hs
    have hct : cur < t := by linarith
    have hrest : rest.Sorted (· ≤ ·) := (List.pairwise_cons.1 hs).2
    have hd : t ≤ clusterLast dLim t t rest := by
      rcases clusterLast_eq_or_mem dLim t rest t with h' | h'
      · rw [h']
      · exact (List.pairwise_cons.1 hs).1 _ h'
    have ihc := ih (clusterTail_sorted hrest)
    have hc : (cur :: clusterLast dLim t t rest ::
        split_points_defer minDur dLim merge (clusterTail dLim t rest)
          (clusterLast dLim t t rest) (n + 1)).Chain' (· < ·) :=
      List.chain'_cons.2 ⟨hct.trans_le hd, ihc⟩
    simpa [split_points_defer, hq, hm] using hc
  | case4 t rest cur n hq ih =>
    intro hs
    simpa [split_points_defer, hq] using ih ((List.pairwise_cons.1 hs).2)

/-! ### Claim C4 -/

/-- Counterexample to claim C4 as stated: snapping is not monotone.  With the
transitions `[(0, 10), (4.4, 4.8)]` (sorted by start) and the sorted keyframes
`[4.5, 5.2]`, the first transition snaps to `5.2` (midpoint `5`, after-candidate
closer) while the second snaps to `4.5` (midpoint `4.6`, only the
before-candidate lies inside), so the candidate list built without a re-sort is
`[5.2, 4.5]` — not an increasing sequence. -/
theorem C4_counterexample :
    ([(0, 10), (22/5, 24/5)] : List (ℚ × ℚ)).Chain' (fun p q => p.1 ≤ q.1) ∧
    ([9/2, 26/5] : List ℚ).Sorted (· ≤ ·) ∧
    all_transitions [(0, 10), (22/5, 24/5)] [9/2, 26/5] 0 = [26/5, 9/2] ∧
    ¬ (all_transitions [(0, 10), (22/5, 24/5)] [9/2, 26/5] 0).Chain' (· < ·) := by
  have hv : all_transitions [(0, 10), (22/5, 24/5)] [9/2, 26/5] 0 = [26/5, 9/2] := by
    norm_num [all_transitions, List.filterMap, find_nearest_keyframe, midpointOf,
      before_midpoint, after_midpoint, List.filter, abs_of_nonpos, abs_of_nonneg]
  refine ⟨?_, ?_, hv, ?_⟩
  · simp only [List.chain'_cons, List.chain'_singleton, and_true]
    norm_num
  · simp only [List.sorted_cons, List.mem_singleton, forall_eq, List.sorted_singleton,
      and_true]
    norm_num
  · rw [hv]
    simp only [List.chain'_cons, List.chain'_singleton, and_true]
    norm_num

/-- Claim C4, amended: the candidate list is built in transition order without
any re-sort, but snapping is NOT monotonicity-preserving, so the list need not
be increasing (see the counterexample).  When the candidate list is
nondecreasing and the minimum scene duration is positive, the final emitted
sequence of split points is strictly increasing under both policies. -/
theorem C4_split_points_strictly_increasing (minDur dLim introEnd : ℚ)
    (merge : List (ℤ × ℤ)) (cands : List ℚ)
    (h : 0 < minDur) (hs : cands.Sorted (· ≤ ·)) :
    (split_points_earliest minDur merge cands introEnd 1).Sorted (· < ·) ∧
    (split_points_defer minDur dLim merge cands introEnd 1).Sorted (· < ·) := by
  constructor
  · have hc := split_points_earliest_lt minDur merge h cands introEnd 1
    exact List.chain'_iff_pairwise.1 (List.chain'_cons'.1 hc).2
  · have hc := split_points_defer_lt minDur dLim merge h cands introEnd 1 hs
    exact List.chain'_iff_pairwise.1 (List.chain'_cons'.1 hc).2

/-- Witness for C4 at `minSceneDuration = 5`, `deferLimit = 30`, `introEnd = 0`,
candidates `[10, 20]`. -/
theorem C4_split_points_strictly_increasing_witness :
    (split_points_earliest 5 [] [10, 20] 0 1).Sorted (· < ·) ∧
    (split_points_defer 5 30 [] [10, 20] 0 1).Sorted (· < ·) :=
  C4_split_points_strictly_increasing 5 30 0 [] [10, 20] (by decide) (by decide)

/-! ### Membership lemmas (claim C9) -/

theorem find_nearest_keyframe_mem {kf : List ℚ} {ts te x : ℚ}
    (h : find_nearest_keyframe kf ts te = some x) : x ∈ kf := by
  have hmb : ∀ b : ℚ, (before_midpoint kf (midpointOf ts te)).getLast? = some b →
      b ∈ kf := by
    intro b hb
    have := mem_of_getLast?_eq hb
    unfold before_midpoint at this
    exact (List.mem_filter.1 this).1
  have hma : ∀ a : ℚ, (after_midpoint kf (midpointOf ts te)).head? = some a →
      a ∈ kf := by
    intro a ha
    have := mem_of_head?_eq ha
    unfold after_midpoint at this
    exact (List.mem_filter.1 this).1
  unfold find_nearest_keyframe at h
  split at h
  · exact absurd h (by simp)
  · next hgb hga => exact (Option.some.inj h) ▸ hma _ hga
  · next hgb hga => exact (Option.some.inj h) ▸ hmb _ hgb
  · next b a hgb hga =>
    split_ifs at h <;> first
      | exact (Option.some.inj h) ▸ hmb _ hgb
      | exact (Option.some.inj h) ▸ hma _ hga

theorem all_transitions_mem {bf : List (ℚ × ℚ)} {kf : List ℚ} {ie x : ℚ}
    (h : x ∈ all_transitions bf kf ie) : x ∈ kf ∧ ie < x := by
  unfold all_transitions at h
  obtain ⟨p, _, hp⟩ := List.mem_filterMap.1 h
  rcases hsnap : find_nearest_keyframe kf p.1 p.2 with _ | v
  · rw [hsnap] at hp; exact absurd hp (by simp)
  · rw [hsnap] at hp
    rw [show (some v).bind (fun scene_end =>
        if scene_end ≠ 0 ∧ ie < scene_end then some scene_end else none) =
        (if v ≠ 0 ∧ ie < v then some v else none) from rfl] at hp
    split_ifs at hp with hcond
    obtain rfl : v = x := Option.some.inj hp
    exact ⟨find_nearest_keyframe_mem hsnap, hcond.2⟩

theorem split_points_earliest_subset (minDur : ℚ) (merge : List (ℤ × ℤ)) :
    ∀ (cands : List ℚ) (cur : ℚ) (n : ℤ),
      split_points_earliest minDur merge cands cur n ⊆ cands := by
  intro cands
  induction cands with
  | nil => intro cur n; simp [split_points_earliest]
  | cons t rest ih =>
    intro cur n x hx
    by_cases hq : minDur ≤ t - cur
    · by_cases hm : should_merge merge n = true
      · simp only [split_points_earliest, if_pos hq, if_pos hm] at hx
        exact List.mem_cons_of_mem t (ih t (n + 1) hx)
      · simp only [split_points_earliest, if_pos hq, if_neg hm] at hx
        rcases List.mem_cons.1 hx with hx' | hx'
        · exact hx' ▸ List.mem_cons_self t rest
        · exact List.mem_cons_of_mem t (ih t (n + 1) hx')
    · simp only [split_points_earliest, if_neg hq] at hx
      exact List.mem_cons_of_mem t (ih cur n hx)

theorem split_points_defer_subset (minDur dLim : ℚ) (merge : List (ℤ × ℤ)) :
    ∀ (cands : List ℚ) (cur : ℚ) (n : ℤ),
      split_points_defer minDur dLim merge cands cur n ⊆ cands := by
  intro cands cur n
  induction cands, cur, n using split_points_defer.induct minDur dLim merge with
  | case1 cur n => simp [split_points_defer]
  | case2 t rest cur n hq hm ih =>
    intro x hx
    simp only [split_points_defer, if_pos hq, if_pos hm] at hx
    exact List.mem_cons_of_mem t
      ((clusterTail_suffix dLim t rest).sublist.subset (ih hx))
  | case3 t rest cur n hq hm ih =>
    intro x hx
    simp only [split_points_defer, if_pos hq, if_neg hm] at hx
    rcases List.mem_cons.1 hx with hx' | hx'
    · rw [hx']
      rcases clusterLast_eq_or_mem dLim t rest t with h' | h'
      · rw [h']; exact List.mem_cons_self t rest
      · exact List.mem_cons_of_mem t h'
    · exact List.mem_cons_of_mem t
        ((clusterTail_suffix dLim t rest).sublist.subset (ih hx'))
  | case4 t rest cur n hq ih =>
    intro x hx
    simp only [split_points_defer, if_neg hq] at hx
    exact List.mem_cons_of_mem t (ih hx)

/-! ### Claim C9 -/

/-- Claim C9: `find_nearest_keyframe` returns none or an element of the input
keyframe list; consequently every split point emitted by either policy from
`all_transitions` is a member of the supplied keyframe set and strictly
greater than the computed intro end. -/
theorem C9_split_points_are_keyframes (kf : List ℚ) (bf : List (ℚ × ℚ))
    (ie minDur dLim : ℚ) (merge : List (ℤ × ℤ)) (ts te x : ℚ) :
    (find_nearest_keyframe kf ts te = some x → x ∈ kf) ∧
    (x ∈ split_points_earliest minDur merge (all_transitions bf kf ie) ie 1 →
      x ∈ kf ∧ ie < x) ∧
    (x ∈ split_points_defer minDur dLim merge (all_transitions bf kf ie) ie 1 →
      x ∈ kf ∧ ie < x) := by
  refine ⟨fun h => find_nearest_keyframe_mem h, fun h => ?_, fun h => ?_⟩
  · exact all_transitions_mem
      (split_points_earliest_subset minDur merge (all_transitions bf kf ie) ie 1 h)
  · exact all_transitions_mem
      (split_points_defer_subset minDur dLim merge (all_transitions bf kf ie) ie 1 h)

/-- Witness for C9: the snapped split point `9.8` of the C8 scenario is a member
of the keyframe set and strictly greater than the intro end `0`. -/
theorem C9_split_points_are_keyframes_witness :
    (49/5 : ℚ) ∈ ([49/5, 109/10] : List ℚ) ∧ (0 : ℚ) < 49/5 :=
  (C9_split_points_are_keyframes [49/5, 109/10] [(10, 53/5)] 0 5 30 [] 0 1 (49/5)).2.1
    (by norm_num [all_transitions, List.filterMap, find_nearest_keyframe, midpointOf,
      before_midpoint, after_midpoint, List.filter, abs_of_nonpos,
      split_points_earliest, should_merge])

/-! ### Claim C3 -/

theorem split_points_defer_eq_trace (minDur dLim : ℚ) (merge : List (ℤ × ℤ)) :
    ∀ (cands : List ℚ) (cur : ℚ) (n : ℤ),
      split_points_defer minDur dLim merge cands cur n =
        ((defer_trace minDur dLim cands cur n).filter fun e =>
          !should_merge merge e.scene).map fun e => e.decision := by
  intro cands cur n
  induction cands, cur, n using split_points_defer.induct minDur dLim merge with
  | case1 cur n => simp [split_points_defer, defer_trace]
  | case2 t rest cur n hq hm ih =>
    simp [split_points_defer, defer_trace, hq, hm, ih]
  | case3 t rest cur n hq hm ih =>
    simp [split_points_defer, defer_trace, hq, hm, ih]
  | case4 t rest cur n hq ih =>
    simp [split_points_defer, defer_trace, hq, ih]

theorem defer_trace_entries (minDur dLim : ℚ) :
    ∀ (cands : List ℚ) (cur : ℚ) (n : ℤ),
      ∀ e ∈ defer_trace minDur dLim cands cur n,
        minDur ≤ e.anchor - e.cursor ∧
          (e.decision = e.anchor ∨ e.decision - e.anchor ≤ dLim) := by
  intro cands cur n
  induction cands, cur, n using defer_trace.induct minDur dLim with
  | case1 cur n => intro e he; simp [defer_trace] at he
  | case2 t rest cur n hq ih =>
    intro e he
    simp only [defer_trace, if_pos hq] at he
    rcases List.mem_cons.1 he with he' | he'
    · subst he'
      exact ⟨hq, clusterLast_eq_last_or_sub_le dLim t rest t⟩
    · exact ih e he'
  | case3 t rest cur n hq ih =>
    intro e he
    simp only [defer_trace, if_neg hq] at he
    exact ih e he

/-- Counterexample to claim C3 as stated: the candidate list the program feeds
the Defer loop can be unsorted (snapping is not monotone), and then a decision
point need not lie within `deferLimit` seconds of its cluster's first
qualifying candidate.  Transitions `[(0, 100), (1, 2)]` with keyframes
`[1.5, 49]` and intro end `0` snap to the candidate list `[49, 1.5]`; with
`minSceneDuration = 1` and `deferLimit = 30` the loop anchors its cluster at
`49`, extends it because `1.5 - 49 = -47.5 ≤ 30`, and emits the split point
`1.5`, which is `47.5 > 30` seconds away from the first qualifying candidate
`49` of its cluster. -/
theorem C3_counterexample :
    all_transitions [(0, 100), (1, 2)] [3/2, 49] 0 = [49, 3/2] ∧
    defer_trace 1 30 [49, 3/2] 0 1 = [⟨0, 1, 49, 3/2⟩] ∧
    split_points_defer 1 30 [] [49, 3/2] 0 1 = [3/2] ∧
    ¬ |(3/2 : ℚ) - 49| ≤ 30 := by
  refine ⟨?_, ?_, ?_, ?_⟩
  · norm_num [all_transitions, List.filterMap, find_nearest_keyframe, midpointOf,
      before_midpoint, after_midpoint, List.filter]
  · norm_num [defer_trace, clusterLast, clusterTail]
  · norm_num [split_points_defer, clusterLast, clusterTail, should_merge]
  · rw [abs_of_nonpos] <;> norm_num

/-- Claim C3, amended: under the Defer policy, when `candidates[i]` satisfies
`candidates[i] - cursor ≥ minSceneDuration`, the cluster is extended by
advancing `j` while `candidates[j+1] - candidates[i] ≤ deferLimit` (anchored to
the first qualifying candidate), `candidates[j]` becomes the decision point
subjected to the merge-or-emit logic, and scanning resumes at `i = j + 1` (the
emitted split points are exactly the merge-surviving decision points of
`defer_trace`); consequently every decision point either IS its cluster's
first qualifying candidate or exceeds it by at most `deferLimit` seconds
(`decision - anchor ≤ deferLimit`) — a one-sided bound: on an unsorted
candidate list the decision can lie arbitrarily far BELOW the anchor, so the
claimed two-sided "within deferLimit seconds" containment fails (see the
counterexample). -/
theorem C3_defer_cluster_structure (minDur dLim : ℚ) (merge : List (ℤ × ℤ))
    (cands : List ℚ) (cur : ℚ) (n : ℤ) :
    split_points_defer minDur dLim merge cands cur n =
      ((defer_trace minDur dLim cands cur n).filter fun e =>
        !should_merge merge e.scene).map (fun e => e.decision) ∧
    ∀ e ∈ defer_trace minDur dLim cands cur n,
      minDur ≤ e.anchor - e.cursor ∧
        (e.decision = e.anchor ∨ e.decision - e.anchor ≤ dLim) :=
  ⟨split_points_defer_eq_trace minDur dLim merge cands cur n,
    defer_trace_entries minDur dLim cands cur n⟩

/-- Witness for C3 at `minSceneDuration = 1`, `deferLimit = 30`, no merges,
candidates `[10, 12, 50]`: the loop clusters `10, 12`, decides `12`, then `50`,
and the first trace entry `⟨0, 1, 10, 12⟩` satisfies the recorded facts. -/
theorem C3_defer_cluster_structure_witness :
    (split_points_defer 1 30 [] [10, 12, 50] 0 1 =
      ((defer_trace 1 30 [10, 12, 50] 0 1).filter fun e =>
        !should_merge [] e.scene).map (fun e => e.decision)) ∧
    ((1 : ℚ) ≤ (DeferEntry.mk 0 1 10 12).anchor - (DeferEntry.mk 0 1 10 12).cursor ∧
      ((DeferEntry.mk 0 1 10 12).decision = (DeferEntry.mk 0 1 10 12).anchor ∨
        (DeferEntry.mk 0 1 10 12).decision - (DeferEntry.mk 0 1 10 12).anchor ≤ 30)) :=
  ⟨(C3_defer_cluster_structure 1 30 [] [10, 12, 50] 0 1).1,
    (C3_defer_cluster_structure 1 30 [] [10, 12, 50] 0 1).2 ⟨0, 1, 10, 12⟩
      (by norm_num [defer_trace, clusterLast, clusterTail])⟩

/-! ### Claim C6 -/

theorem overlapClamp_eq_filter_map (s e a : ℚ) :
    ∀ frames : List (ℚ × ℚ),
      overlapClamp s e a frames =
        ((frames.map fun p => (a + p.1, a + p.2)).filter fun p =>
          decide (s < p.2 ∧ p.1 < e)).map fun p => (max p.1 s, min p.2 e) := by
  intro frames
  induction frames with
  | nil => rfl
  | cons q rest ih =>
    by_cases hc : s < a + q.2 ∧ a + q.1 < e
    · simp [overlapClamp, List.filterMap_cons, hc] at ih ⊢
      exact ih
    · simp [overlapClamp, List.filterMap_cons, hc] at ih ⊢
      exact ih

theorem refineAttempts_eq_amended (detect : ℚ → ℚ → ℚ → List (ℚ × ℚ))
    (s e maxDur : ℚ) :
    ∀ (fuel : ℕ) (th : ℚ),
      refineAttempts detect s e maxDur fuel th =
        refineAmendedAttempts detect s e maxDur fuel th := by
  intro fuel
  induction fuel with
  | zero => intro th; rfl
  | succ k ih =>
    intro th
    have hdur : (e + 1/2) - (s - 1/2) = (e - s) + 1 := by ring
    have hval1 : refineAttempts detect s e maxDur (k + 1) th =
        (if detect (max 0 (s - 1/2)) ((e - s) + 1) (roundTo4 ((th + 1) / 2)) = [] then
          [(s, e)]
        else if overlapClamp s e (max 0 (s - 1/2))
            (detect (max 0 (s - 1/2)) ((e - s) + 1) (roundTo4 ((th + 1) / 2))) = [] then
          [(s, e)]
        else if ((overlapClamp s e (max 0 (s - 1/2))
            (detect (max 0 (s - 1/2)) ((e - s) + 1) (roundTo4 ((th + 1) / 2)))).filter
            fun p => decide (p.2 - p.1 < maxDur)).isEmpty then
          refineAttempts detect s e maxDur k (roundTo4 ((th + 1) / 2))
        else (overlapClamp s e (max 0 (s - 1/2))
            (detect (max 0 (s - 1/2)) ((e - s) + 1) (roundTo4 ((th + 1) / 2)))).filter
            fun p => decide (p.2 - p.1 < maxDur)) := rfl
    have hval2 : refineAmendedAttempts detect s e maxDur (k + 1) th =
        (if (((detect (max 0 (s - 1/2)) ((e + 1/2) - (s - 1/2))
            (roundTo4 ((th + 1) / 2))).map fun p =>
            (max 0 (s - 1/2) + p.1, max 0 (s - 1/2) + p.2)).filter fun p =>
            decide (s < p.2 ∧ p.1 < e)).map (fun p => (max p.1 s, min p.2 e)) = [] then
          [(s, e)]
        else if ((((detect (max 0 (s - 1/2)) ((e + 1/2) - (s - 1/2))
            (roundTo4 ((th + 1) / 2))).map fun p =>
            (max 0 (s - 1/2) + p.1, max 0 (s - 1/2) + p.2)).filter fun p =>
            decide (s < p.2 ∧ p.1 < e)).map (fun p => (max p.1 s, min p.2 e))).filter
            (fun p => decide (p.2 - p.1 < maxDur)) = [] then
          refineAmendedAttempts detect s e maxDur k (roundTo4 ((th + 1) / 2))
        else ((((detect (max 0 (s - 1/2)) ((e + 1/2) - (s - 1/2))
            (roundTo4 ((th + 1) / 2))).map fun p =>
            (max 0 (s - 1/2) + p.1, max 0 (s - 1/2) + p.2)).filter fun p =>
            decide (s < p.2 ∧ p.1 < e)).map (fun p => (max p.1 s, min p.2 e))).filter
            fun p => decide (p.2 - p.1 < maxDur)) := rfl
    rw [hval1, hval2, hdur,
      ← overlapClamp_eq_filter_map s e (max 0 (s - 1/2))
        (detect (max 0 (s - 1/2)) ((e - s) + 1) (roundTo4 ((th + 1) / 2)))]
    by_cases hf : detect (max 0 (s - 1/2)) ((e - s) + 1) (roundTo4 ((th + 1) / 2)) = []
    · rw [hf]
      simp [overlapClamp]
    · rw [if_neg hf]
      by_cases hr : overlapClamp s e (max 0 (s - 1/2))
          (detect (max 0 (s - 1/2)) ((e - s) + 1) (roundTo4 ((th + 1) / 2))) = []
      · rw [if_pos hr, if_pos hr]
      · rw [if_neg hr, if_neg hr]
        by_cases hshort : ((overlapClamp s e (max 0 (s - 1/2))
            (detect (max 0 (s - 1/2)) ((e - s) + 1) (roundTo4 ((th + 1) / 2)))).filter
            fun p => decide (p.2 - p.1 < maxDur)) = []
        · rw [if_pos (List.isEmpty_iff.2 hshort), if_pos hshort]
          exact ih (roundTo4 ((th + 1) / 2))
        · rw [if_neg (by rw [List.isEmpty_iff]; exact hshort), if_neg hshort]

/-- Counterexample to claim C6 as stated: the claim says the analysis window
runs "from `max(0, intervalStart - 0.5)` to `intervalEnd + 0.5`", but the code
passes the fixed duration `(intervalEnd - intervalStart) + 1` from the clamped
start, so for `intervalStart = 0 < 0.5` the actual window ends at
`intervalEnd + 1 - intervalStart`, not `intervalEnd + 0.5`.  A collaborator
that reports a sub-interval only when invoked with window duration `2`
observes the difference on the segment `(0, 1)`: the code finds `(0.5, 1)`
while the claimed procedure finds nothing and keeps the original segment. -/
theorem C6_counterexample :
    refine_long_segment detectDurProbe 0 1 (98/100) 3 = [(1/2, 1)] ∧
    refineClaimed detectDurProbe 0 1 (98/100) 3 = [(0, 1)] := by
  constructor
  · norm_num [refine_long_segment, refineAttempts, detectDurProbe, overlapClamp,
      List.filterMap, List.filter]
  · norm_num [refineClaimed, refineClaimedAttempts, detectDurProbe]

/-- Claim C6, amended: `refine_long_segment` makes at most 2 tightening
attempts, each using threshold `round((current + 1.0) / 2, 4)` starting from
the configured black-ratio threshold, over the padded analysis window starting
at `max(0, intervalStart - 0.5)` with length `(intervalEnd + 0.5) - (intervalStart - 0.5)`
(so the window ends at `intervalEnd + 0.5` only when `intervalStart ≥ 0.5`; the
claimed fixed endpoint fails below that, see the counterexample); on each
attempt it shifts reported sub-intervals to absolute time, discards those not
overlapping `[intervalStart, intervalEnd]`, clamps the survivors to that range,
returns the original single interval when no candidate survives or the attempt
budget is exhausted, and returns exactly the surviving candidates of duration
strictly less than `maxAllowedDuration` as soon as at least one exists. -/
theorem C6_refine_follows_amended_claim (detect : ℚ → ℚ → ℚ → List (ℚ × ℚ))
    (intervalStart intervalEnd pic_th maxAllowedDuration : ℚ) :
    refine_long_segment detect intervalStart intervalEnd pic_th maxAllowedDuration =
      refineAmended detect intervalStart intervalEnd pic_th maxAllowedDuration :=
  refineAttempts_eq_amended detect intervalStart intervalEnd maxAllowedDuration 2 pic_th

/-! ### Claim C10 -/

theorem overlapClamp_bounds {s e a : ℚ} (hse : s < e) {frames : List (ℚ × ℚ)}
    (hwf : ∀ p ∈ frames, p.1 ≤ p.2) :
    ∀ q ∈ overlapClamp s e a frames, s ≤ q.1 ∧ q.1 ≤ q.2 ∧ q.2 ≤ e := by
  intro q hq
  unfold overlapClamp at hq
  obtain ⟨p, hp, hq'⟩ := List.mem_filterMap.1 hq
  split_ifs at hq' with hc
  obtain rfl := Option.some.inj hq'
  have h1 : a + p.1 ≤ a + p.2 := by have := hwf p hp; linarith
  exact ⟨le_max_right _ _,
    le_min (max_le h1 hc.1.le) (max_le hc.2.le hse.le),
    min_le_right _ _⟩

theorem refineAttempts_sound (detect : ℚ → ℚ → ℚ → List (ℚ × ℚ))
    (s e maxDur : ℚ) (hse : s < e)
    (hwf : ∀ a d t, ∀ p ∈ detect a d t, p.1 ≤ p.2) :
    ∀ (fuel : ℕ) (th : ℚ),
      refineAttempts detect s e maxDur fuel th ≠ [] ∧
      ∀ q ∈ refineAttempts detect s e maxDur fuel th,
        s ≤ q.1 ∧ q.1 ≤ q.2 ∧ q.2 ≤ e := by
  have horig : ∀ q ∈ ([(s, e)] : List (ℚ × ℚ)), s ≤ q.1 ∧ q.1 ≤ q.2 ∧ q.2 ≤ e := by
    intro q hq
    obtain rfl := List.mem_singleton.1 hq
    exact ⟨le_refl s, hse.le, le_refl e⟩
  intro fuel
  induction fuel with
  | zero => intro th; exact ⟨by simp [refineAttempts], fun q hq => horig q hq⟩
  | succ k ih =>
    intro th
    have hval : refineAttempts detect s e maxDur (k + 1) th =
        (if detect (max 0 (s - 1/2)) ((e - s) + 1) (roundTo4 ((th + 1) / 2)) = [] then
          [(s, e)]
        else if overlapClamp s e (max 0 (s - 1/2))
            (detect (max 0 (s - 1/2)) ((e - s) + 1) (roundTo4 ((th + 1) / 2))) = [] then
          [(s, e)]
        else if ((overlapClamp s e (max 0 (s - 1/2))
            (detect (max 0 (s - 1/2)) ((e - s) + 1) (roundTo4 ((th + 1) / 2)))).filter
            fun p => decide (p.2 - p.1 < maxDur)).isEmpty then
          refineAttempts detect s e maxDur k (roundTo4 ((th + 1) / 2))
        else (overlapClamp s e (max 0 (s - 1/2))
            (detect (max 0 (s - 1/2)) ((e - s) + 1) (roundTo4 ((th + 1) / 2)))).filter
            fun p => decide (p.2 - p.1 < maxDur)) := rfl
    rw [hval]
    by_cases hf : detect (max 0 (s - 1/2)) ((e - s) + 1) (roundTo4 ((th + 1) / 2)) = []
    · rw [if_pos hf]; exact ⟨by simp, horig⟩
    · rw [if_neg hf]
      by_cases hr : overlapClamp s e (max 0 (s - 1/2))
          (detect (max 0 (s - 1/2)) ((e - s) + 1) (roundTo4 ((th + 1) / 2))) = []
      · rw [if_pos hr]; exact ⟨by simp, horig⟩
      · rw [if_neg hr]
        by_cases hshort : ((overlapClamp s e (max 0 (s - 1/2))
            (detect (max 0 (s - 1/2)) ((e - s) + 1) (roundTo4 ((th + 1) / 2)))).filter
            fun p => decide (p.2 - p.1 < maxDur)) = []
        · rw [if_pos (List.isEmpty_iff.2 hshort)]
          exact ih (roundTo4 ((th + 1) / 2))
        · rw [if_neg (by rw [List.isEmpty_iff]; exact hshort)]
          refine ⟨hshort, fun q hq => ?_⟩
          exact overlapClamp_bounds hse (hwf _ _ _) q (List.mem_of_mem_filter hq)

/-- Claim C10: for every input with `start_time < end_time`, and assuming every
collaborator-reported sub-interval has its start not after its end,
`refine_long_segment` returns a non-empty list whose every interval is
contained in the original range `[start_time, end_time]`. -/
theorem C10_refine_nonempty_contained (detect : ℚ → ℚ → ℚ → List (ℚ × ℚ))
    (start_time end_time pic_th max_duration : ℚ)
    (hse : start_time < end_time)
    (hwf : ∀ a d t, ∀ p ∈ detect a d t, p.1 ≤ p.2) :
    refine_long_segment detect start_time end_time pic_th max_duration ≠ [] ∧
    ∀ q ∈ refine_long_segment detect start_time end_time pic_th max_duration,
      start_time ≤ q.1 ∧ q.1 ≤ q.2 ∧ q.2 ≤ end_time :=
  refineAttempts_sound detect start_time end_time max_duration hse hwf 2 pic_th

/-- Witness for C10 at the silent collaborator and the segment `(0, 1)`. -/
theorem C10_refine_nonempty_contained_witness :
    refine_long_segment (fun _ _ _ => []) 0 1 (98/100) 3 ≠ [] :=
  (C10_refine_nonempty_contained (fun _ _ _ => []) 0 1 (98/100) 3 (by decide)
    (by simp)).1

end VideoSplitScenes
